import Mathlib

/-!
Verification of the BGZF codec in Bio/Sequencing/SamBam/bgzf.py.

Shallow embedding conventions:
  * Python byte strings are `List Nat` (one Nat per byte; the writer only ever
    emits values below 256, while the decoder is proved against arbitrary input).
  * Machine integers are `Nat` / `Int` with explicit bounds where the Python
    code could overflow or go negative.
  * Fallible Python code (raise / assert / struct.error) returns
    `Except PErr _` with a constructor per Python exception class.
  * The external zlib compressor and decompressor are parameters
    `compress decompress : List Nat -> List Nat`; theorems that need zlib to be
    an inverse pair take that as an explicit hypothesis.  zlib.crc32 is
    modelled by the standard CRC-32 bit algorithm (`crc32` below); the
    round-trip results only use that the writer and the reader call the same
    function, exactly as in the source.
  * Loops (`while` in Python) are embedded with an explicit fuel argument so
    that every definition is structurally recursive and kernel-evaluable; each
    call site passes a fuel value proved (or checked concretely) to be enough,
    and exhaustion is a distinguished error that the theorems rule out.
-/

/-- Python exceptions raised by the bgzf module, one constructor per class.
`stopIteration` is the clean end-of-stream signal (terminates the
`BgzfBlocks` generator loop normally); `structError` models the range and
length errors of struct.pack / struct.unpack; `fuelExhausted` is an artifact
of the fuel embedding of while loops and is proved unreachable where it
matters. -/
inductive PErr where
  | stopIteration
  | valueError (msg : String)
  | assertionError (msg : String)
  | structError
  | notImplementedError (msg : String)
  | attributeError (msg : String)
  | fuelExhausted
deriving DecidableEq, Repr

instance {ε α : Type} [DecidableEq ε] [DecidableEq α] : DecidableEq (Except ε α) := fun a b =>
  match a, b with
  | .error e, .error f =>
    if h : e = f then .isTrue (by rw [h]) else .isFalse (by intro hc; cases hc; exact h rfl)
  | .error _, .ok _ => .isFalse (by intro hc; cases hc)
  | .ok _, .error _ => .isFalse (by intro hc; cases hc)
  | .ok a, .ok b =>
    if h : a = b then .isTrue (by rw [h]) else .isFalse (by intro hc; cases hc; exact h rfl)

/-- A computation over a byte stream handle: takes the current file position,
returns a value and the new position (or a Python exception).  The stream
contents are passed explicitly to the primitives. -/
def PM (α : Type) : Type := Nat → Except PErr (α × Nat)

/-- Sequencing of stream computations (explicit, to keep proofs in control). -/
def pbind {α β : Type} (m : PM α) (f : α → PM β) : PM β := fun pos =>
  match m pos with
  | .error e => .error e
  | .ok (a, p) => f a p

def ppure {α : Type} (a : α) : PM α := fun pos => .ok (a, pos)

def pthrow {α : Type} (e : PErr) : PM α := fun _ => .error e

/-- Model of handle.tell(). -/
def pmTell : PM Nat := fun pos => .ok (pos, pos)

/-- Model of handle.read(n) for n >= 0: returns up to n bytes, fewer only at
end of stream, and advances the position by the number of bytes returned. -/
def pmRead (s : List Nat) (n : Nat) : PM (List Nat) := fun pos =>
  let bs := (s.drop pos).take n
  .ok (bs, pos + bs.length)

/-- Model of handle.read(n) for n < 0: Python 2 file objects read the whole
rest of the stream. -/
def pmReadAll (s : List Nat) : PM (List Nat) := fun pos =>
  let bs := s.drop pos
  .ok (bs, pos + bs.length)

/-- Lift a pure fallible computation into the stream monad. -/
def pliftE {α : Type} (x : Except PErr α) : PM α := fun pos =>
  match x with
  | .error e => .error e
  | .ok a => .ok (a, pos)

/-- struct.unpack of little-endian u16: requires exactly two bytes. -/
def unpackH : List Nat → Except PErr Nat
  | [b0, b1] => .ok (b0 + 256 * b1)
  | _ => .error .structError

/-- struct.unpack of little-endian u32: requires exactly four bytes. -/
def unpackI : List Nat → Except PErr Nat
  | [b0, b1, b2, b3] => .ok (b0 + 256 * b1 + 65536 * b2 + 16777216 * b3)
  | _ => .error .structError

/-- The two little-endian bytes of a u16 value. -/
def leBytes2 (n : Nat) : List Nat := [n % 256, n / 256 % 256]

/-- The four little-endian bytes of a u32 value. -/
def leBytes4 (n : Nat) : List Nat :=
  [n % 256, n / 256 % 256, n / 65536 % 256, n / 16777216 % 256]

/-- struct.pack of little-endian u16: range-checked, raises struct.error on
values of 2^16 or more (Python 2.7 semantics). -/
def packH (n : Nat) : Except PErr (List Nat) :=
  if n < 65536 then .ok (leBytes2 n) else .error .structError

/-- One bit step of the standard CRC-32 (reflected polynomial 0xEDB88320),
modelling zlib.crc32. -/
def crc32_update_bit (c : Nat) : Nat :=
  if c % 2 = 1 then (c / 2) ^^^ 0xEDB88320 else c / 2

/-- One byte step of CRC-32: xor the byte in, then eight bit steps. -/
def crc32_update_byte (c b : Nat) : Nat :=
  crc32_update_bit (crc32_update_bit (crc32_update_bit (crc32_update_bit
    (crc32_update_bit (crc32_update_bit (crc32_update_bit (crc32_update_bit
      (c ^^^ b % 256))))))))

/-- Model of zlib.crc32 on a byte string (result taken as the unsigned
32-bit value; the source packs the signed Python 2 result and the masked
unsigned result to the same four little-endian bytes). -/
def crc32 (data : List Nat) : Nat :=
  4294967295 ^^^ data.foldl crc32_update_byte 4294967295

theorem crc32_update_bit_lt (c : Nat) (h : c < 4294967296) :
    crc32_update_bit c < 4294967296 := by
  unfold crc32_update_bit
  split
  · exact Nat.xor_lt_two_pow (n := 32) (by omega) (by norm_num)
  · omega

theorem crc32_update_byte_lt (c b : Nat) (h : c < 4294967296) :
    crc32_update_byte c b < 4294967296 := by
  unfold crc32_update_byte
  have h0 : c ^^^ b % 256 < 4294967296 :=
    Nat.xor_lt_two_pow (n := 32) (by omega) (by have := Nat.mod_lt b (y := 256) (by norm_num); omega)
  iterate 8 apply crc32_update_bit_lt
  exact h0

theorem crc32_lt (data : List Nat) : crc32 data < 4294967296 := by
  unfold crc32
  apply Nat.xor_lt_two_pow (n := 32) (by norm_num)
  have : ∀ l c, c < 4294967296 → List.foldl crc32_update_byte c l < 4294967296 := by
    intro l
    induction l with
    | nil => intro c hc; simpa using hc
    | cons a t ih => intro c hc; exact ih _ (crc32_update_byte_lt c a hc)
  exact this data 4294967295 (by norm_num)

/-- crc32 masked to 32 bits is itself (the source masks with 0xffffffff
before packing; the mask is the identity here). -/
theorem crc32_and_mask (data : List Nat) : crc32 data &&& 4294967295 = crc32 data := by
  have h := Nat.and_pow_two_sub_one_of_lt_two_pow (n := 32) (crc32_lt data)
  norm_num at h
  exact h

/-- Model of bgzf.make_virtual_offset.  The source (line 141) tests
block_start_offset against 2^28 even though its docstring, doctests and its
own error message all say 2^48.  Negative inputs, which Python also rejects,
are unrepresentable in the Nat model. -/
def make_virtual_offset (block_start_offset within_block_offset : Nat) :
    Except PErr Nat :=
  if within_block_offset ≥ 2 ^ 16 then
    .error (.valueError ("Require 0 <= within_block_offset < 2**16"))
  else if block_start_offset ≥ 2 ^ 28 then
    .error (.valueError ("Require 0 <= block_start_offset < 2**48"))
  else
    .ok ((block_start_offset <<< 16) ||| within_block_offset)

/-- Model of bgzf.split_virtual_offset: start = offset >> 16, and the within
offset is offset ^ (start << 16). -/
def split_virtual_offset (virtual_offset : Nat) : Nat × Nat :=
  (virtual_offset >>> 16, virtual_offset ^^^ ((virtual_offset >>> 16) <<< 16))

theorem shiftLeft_or_shiftRight (bs wb : Nat) (h : wb < 2 ^ 16) :
    ((bs <<< 16) ||| wb) >>> 16 = bs := by
  apply Nat.eq_of_testBit_eq
  intro i
  have hwb : wb.testBit (16 + i) = false := by
    apply Nat.testBit_lt_two_pow
    calc wb < 2 ^ 16 := h
    _ ≤ 2 ^ (16 + i) := Nat.pow_le_pow_right (by norm_num) (by omega)
  simp [Nat.testBit_shiftRight, Nat.testBit_or, Nat.testBit_shiftLeft, hwb]

theorem or_xor_shiftLeft (bs wb : Nat) (h : wb < 2 ^ 16) :
    ((bs <<< 16) ||| wb) ^^^ (bs <<< 16) = wb := by
  apply Nat.eq_of_testBit_eq
  intro i
  rw [Nat.testBit_xor, Nat.testBit_or]
  rcases Nat.lt_or_ge i 16 with hi | hi
  · have hbs : (bs <<< 16).testBit i = false := by
      rw [Nat.testBit_shiftLeft, decide_eq_false (by omega : ¬ i ≥ 16)]
      simp
    rw [hbs]
    simp
  · have hwb : wb.testBit i = false := by
      apply Nat.testBit_lt_two_pow
      calc wb < 2 ^ 16 := h
      _ ≤ 2 ^ i := Nat.pow_le_pow_right (by norm_num) hi
    rw [hwb]
    cases hb : (bs <<< 16).testBit i <;> simp

/-- C2: the claim says make_virtual_offset accepts every block start below
2^48, matching the docstring, the doctests and the error message in the
source; but the guard on line 141 tests 2^28, so 2^28 itself (far below
2^48) is rejected with a message that contradicts the check.  The doctest
examples pack(100000,10) and pack(2^48,0) behave as documented. -/
theorem make_virtual_offset_rejects_below_2_48 :
    make_virtual_offset (2 ^ 28) 0 =
      .error (.valueError ("Require 0 <= block_start_offset < 2**48"))
    ∧ 2 ^ 28 < 2 ^ 48
    ∧ make_virtual_offset 100000 10 = .ok 6553600010
    ∧ make_virtual_offset (2 ^ 48) 0 =
      .error (.valueError ("Require 0 <= block_start_offset < 2**48")) := by
  refine ⟨by decide, by norm_num, ?_, by decide⟩
  decide

/-- C3: the bijection claim quantifies over all block starts below 2^48, but
make_virtual_offset (because of the 2^28 guard, see C2) raises on 2^28, so
the composition cannot even be formed there; on the domain the code actually
accepts, packing then splitting is the identity. -/
theorem split_make_virtual_offset :
    make_virtual_offset (2 ^ 28) 17 =
      .error (.valueError ("Require 0 <= block_start_offset < 2**48"))
    ∧ ∀ bs wb : Nat, bs < 2 ^ 28 → wb < 2 ^ 16 →
        make_virtual_offset bs wb = .ok ((bs <<< 16) ||| wb)
        ∧ split_virtual_offset ((bs <<< 16) ||| wb) = (bs, wb) := by
  refine ⟨by decide, ?_⟩
  intro bs wb hbs hwb
  constructor
  · unfold make_virtual_offset
    rw [if_neg (by omega), if_neg (by omega)]
  · unfold split_virtual_offset
    rw [shiftLeft_or_shiftRight bs wb hwb, or_xor_shiftLeft bs wb hwb]

/-- Witness for C3 at the documented example pack(100000, 10). -/
theorem split_make_virtual_offset_witness :
    make_virtual_offset 100000 10 = .ok ((100000 <<< 16) ||| 10)
    ∧ split_virtual_offset ((100000 <<< 16) ||| 10) = (100000, 10) :=
  split_make_virtual_offset.2 100000 10 (by norm_num) (by norm_num)

/-- Python exception propagation for sequenced statements: an uncaught
exception aborts the rest. -/
def ebind {α β : Type} (m : Except PErr α) (f : α → Except PErr β) : Except PErr β :=
  match m with
  | .error e => .error e
  | .ok a => f a

theorem ebind_ok {α β : Type} {m : Except PErr α} {f : α → Except PErr β} {a : α}
    (h : m = .ok a) : ebind m f = f a := by
  rw [h]
  rfl

/-! ## Writer (class BgzfWriter)

The underlying sink handle is modelled as the list of bytes written so far;
handle.tell() is its length.  compresslevel only parametrises zlib and is
dropped together with it; the zlib compressor object is the `compress`
parameter. -/

structure BgzfWriter where
  handle : List Nat
  buffer : List Nat
deriving DecidableEq, Repr

/-- The bytes of one framed block as BgzfWriter._write_block lays them out:
fixed 16 header bytes (gzip magic 1f 8b 08 04, zero mtime, extra flags 00,
OS ff, xlen 06 00, subfield id 42 43 = BC, subfield length 02 00), the BC
payload = little-endian u16 of len(compressed) + 25, the compressed data,
the little-endian u32 CRC-32 of the uncompressed block, and the
little-endian u32 uncompressed length. -/
def blockBytes (compress : List Nat → List Nat) (block : List Nat) : List Nat :=
  0x1f :: 0x8b :: 0x08 :: 0x04 :: 0x00 :: 0x00 :: 0x00 :: 0x00 ::
  0x00 :: 0xff :: 0x06 :: 0x00 :: 0x42 :: 0x43 :: 0x02 :: 0x00 ::
  (leBytes2 ((compress block).length + 25) ++ compress block ++
    leBytes4 (crc32 block &&& 4294967295) ++ leBytes4 block.length)

/-- Model of BgzfWriter._write_block: asserts len(block) <= 65536, compresses,
asserts len(compressed) < 65536, then packs the BC field with
struct.pack("<H", len(compressed)+25) — which raises struct.error when
len(compressed)+25 is 2^16 or more — and appends the framed block to the
sink.  (The first crc computation on lines 343-348 of the source is dead:
line 350 immediately overwrites it with the masked repack.) -/
def BgzfWriter._write_block (w : BgzfWriter) (compress : List Nat → List Nat)
    (block : List Nat) : Except PErr BgzfWriter :=
  if block.length ≤ 65536 then
    if (compress block).length < 65536 then
      match packH ((compress block).length + 25) with
      | .error e => .error e
      | .ok _bsize => .ok { w with handle := w.handle ++ blockBytes compress block }
    else .error (.assertionError ("TODO - Did not compress enough, try less data in this block"))
  else .error (.assertionError ("len(block) <= 65536"))

/-- The while loop of BgzfWriter.write: while the buffer holds at least 65536
bytes, write the first 65536 bytes as a block and drop them.  Structural on
fuel; write passes the buffer length, which bounds the iteration count. -/
def write_loop (compress : List Nat → List Nat) : Nat → BgzfWriter → Except PErr BgzfWriter
  | 0, w => if 65536 ≤ w.buffer.length then .error .fuelExhausted else .ok w
  | fuel + 1, w =>
    if 65536 ≤ w.buffer.length then
      match w._write_block compress (w.buffer.take 65536) with
      | .error e => .error e
      | .ok w1 => write_loop compress fuel { w1 with buffer := w.buffer.drop 65536 }
    else .ok w

/-- Model of BgzfWriter.write: append to the buffer; if that reaches 65536
bytes, drain full 65536-byte chunks. -/
def BgzfWriter.write (w : BgzfWriter) (compress : List Nat → List Nat)
    (data : List Nat) : Except PErr BgzfWriter :=
  if w.buffer.length + data.length < 65536 then
    .ok { w with buffer := w.buffer ++ data }
  else
    write_loop compress (w.buffer.length + data.length) { w with buffer := w.buffer ++ data }

/-- The while loop of BgzfWriter.flush: while the buffer holds at least 65536
bytes, write the first 65535 (sic, source lines 381-382) bytes as a block
and drop them. -/
def flush_loop (compress : List Nat → List Nat) : Nat → BgzfWriter → Except PErr BgzfWriter
  | 0, w => if 65536 ≤ w.buffer.length then .error .fuelExhausted else .ok w
  | fuel + 1, w =>
    if 65536 ≤ w.buffer.length then
      match w._write_block compress (w.buffer.take 65535) with
      | .error e => .error e
      | .ok w1 => flush_loop compress fuel { w1 with buffer := w.buffer.drop 65535 }
    else .ok w

/-- Model of BgzfWriter.flush: drain 65535-byte chunks while the buffer holds
at least 65536 bytes, then write the remaining buffer (possibly empty) as a
final block and clear the buffer.  handle.flush() is a no-op on the list
sink. -/
def BgzfWriter.flush (w : BgzfWriter) (compress : List Nat → List Nat) :
    Except PErr BgzfWriter :=
  ebind (flush_loop compress w.buffer.length w) fun w1 =>
  ebind (w1._write_block compress w1.buffer) fun w2 =>
  .ok { w2 with buffer := [] }

/-- Model of BgzfWriter.close: flush when the buffer is non-empty, then close
the handle (closing is a no-op on the list sink). -/
def BgzfWriter.close (w : BgzfWriter) (compress : List Nat → List Nat) :
    Except PErr BgzfWriter :=
  if w.buffer ≠ [] then w.flush compress else .ok w

/-- Model of BgzfWriter.tell, source line 399: the body reads self.handle,
but the constructor only ever assigns self._handle, so every call raises
AttributeError before make_virtual_offset is reached. -/
def BgzfWriter.tell (_w : BgzfWriter) : Except PErr Nat :=
  .error (.attributeError ("handle"))

/-- C8: the claim says tell() returns pack(sink position, len(pending
buffer)); the source instead raises AttributeError on every call because
line 399 spells the handle attribute self.handle while only self._handle
exists.  This holds for every writer state, so in particular for the state
the claim describes. -/
theorem BgzfWriter_tell_attribute_error (w : BgzfWriter) :
    BgzfWriter.tell w = .error (.attributeError ("handle")) := rfl

/-! ## Block decoder (_load_bgzf_block)

The decoder runs in `PM` over the handle's byte list.  The subfield while
loop carries fuel = extra_len, which bounds its iteration count because each
iteration adds subfield_len + 4 >= 4 to x_len and the loop runs only while
x_len < extra_len. -/

/-- The extra-subfield loop of _load_bgzf_block: repeatedly read subfield id
(2 bytes), subfield length (little-endian u16), and the subfield data; track
x_len; a BC subfield must have payload length 2, occur at most once, and
yields block_size = u16(payload) + 1.  Returns (block_size option, final
x_len). -/
def bc_subfield_loop (s : List Nat) (extra_len : Nat) :
    Nat → Option Nat → Nat → PM (Option Nat × Nat)
  | 0, block_size, x_len => fun pos =>
    if x_len < extra_len then .error .fuelExhausted else .ok ((block_size, x_len), pos)
  | fuel + 1, block_size, x_len =>
    if x_len < extra_len then
      pbind (pmRead s 2) fun subfield_id =>
      pbind (pbind (pmRead s 2) fun raw => pliftE (unpackH raw)) fun subfield_len =>
      pbind (pmRead s subfield_len) fun subfield_data =>
      if subfield_id = [0x42, 0x43] then
        if subfield_len = 2 then
          if block_size = none then
            pbind (pliftE (unpackH subfield_data)) fun v =>
              bc_subfield_loop s extra_len fuel (some (v + 1)) (x_len + subfield_len + 4)
          else pthrow (.assertionError ("Two BC subfields?"))
        else pthrow (.assertionError ("Wrong BC payload length"))
      else bc_subfield_loop s extra_len fuel block_size (x_len + subfield_len + 4)
    else ppure (block_size, x_len)

/-- The tail of _load_bgzf_block once the BC subfield has produced a block
size: read the deflate payload of block_size - 1 - extra_len - 19 bytes
(Python 2 reads the whole rest of the stream when this is negative),
inflate, read the 4-byte CRC and the 4-byte length trailer, and check both
against the inflated data. -/
def _load_bgzf_tail (decompress : List Nat → List Nat) (s : List Nat)
    (start_offset block_size extra_len : Nat) : PM (Nat × Nat × List Nat) :=
  pbind (if (block_size : Int) - 1 - (extra_len : Int) - 19 < 0 then pmReadAll s
         else pmRead s ((block_size : Int) - 1 - (extra_len : Int) - 19).toNat) fun raw =>
  pbind (ppure (decompress raw)) fun data =>
  pbind (pmRead s 4) fun expected_crc =>
  pbind (pbind (pmRead s 4) fun raw2 => pliftE (unpackI raw2)) fun expected_size =>
  if expected_size ≠ data.length then
    pthrow (.assertionError ("Decompressed to the wrong size"))
  else if expected_crc ≠ leBytes4 (crc32 data) then
    pthrow (.assertionError ("CRC mismatch"))
  else ppure (start_offset, block_size, data)

/-- Model of bgzf._load_bgzf_block.  Returns (start_offset, block_size,
decompressed data).  Mirrors the source line by line: magic check (empty
read raises the clean StopIteration, wrong bytes ValueError), header fields,
the subfield loop, the x_len and BC asserts, then the payload and trailer
via _load_bgzf_tail. -/
def _load_bgzf_block (decompress : List Nat → List Nat) (s : List Nat) :
    PM (Nat × Nat × List Nat) :=
  pbind pmTell fun start_offset =>
  pbind (pmRead s 4) fun magic =>
  if magic = [] then pthrow .stopIteration
  else if magic ≠ [0x1f, 0x8b, 0x08, 0x04] then
    pthrow (.valueError ("A BGZF (e.g. a BAM file) block should start with hex 1f 8b 08 04"))
  else
  pbind (pmRead s 4) fun _gzip_mod_time =>
  pbind (pmRead s 1) fun _gzip_extra_flags =>
  pbind (pmRead s 1) fun _gzip_os =>
  pbind (pbind (pmRead s 2) fun raw => pliftE (unpackH raw)) fun extra_len =>
  pbind (bc_subfield_loop s extra_len extra_len none 0) fun loop_res =>
  if loop_res.2 ≠ extra_len then pthrow (.assertionError ("(x_len, extra_len)"))
  else
    match loop_res.1 with
    | none => pthrow (.assertionError ("Missing BC, this is not a BGZF file!"))
    | some block_size => _load_bgzf_tail decompress s start_offset block_size extra_len

/-- One pass of the BgzfBlocks generator loop / decode_all: decode blocks
from position pos, concatenating payloads, until the clean StopIteration.
Fuel bounds the block count; decode_all passes length + 1, enough because
every successfully decoded block consumes at least one byte. -/
def decode_all_loop (decompress : List Nat → List Nat) (s : List Nat) :
    Nat → Nat → List Nat → Except PErr (List Nat)
  | 0, pos, acc =>
    match _load_bgzf_block decompress s pos with
    | .error .stopIteration => .ok acc
    | .error e => .error e
    | .ok _ => .error .fuelExhausted
  | fuel + 1, pos, acc =>
    match _load_bgzf_block decompress s pos with
    | .error .stopIteration => .ok acc
    | .error e => .error e
    | .ok ((_start, _bsize, data), pos1) => decode_all_loop decompress s fuel pos1 (acc ++ data)

/-- Decode every block of a stream in order and concatenate the decompressed
payloads (the reading side of the round-trip property). -/
def decode_all (decompress : List Nat → List Nat) (s : List Nat) : Except PErr (List Nat) :=
  decode_all_loop decompress s (s.length + 1) 0 []

/-! ## Reader (class BgzfReader) -/

/-- Reader session state: the underlying handle (stream bytes plus position)
and the fields _load_block assigns: _block_start_offset, _block_size,
_buffer (current decompressed block) and _within_block_offset. -/
structure BgzfReader where
  stream : List Nat
  pos : Nat
  block_start_offset : Nat
  block_size : Nat
  buffer : List Nat
  within_block_offset : Nat
deriving DecidableEq, Repr

/-- Model of BgzfReader._load_block: optionally seek (Python tests
`if start_offset:`, false for both None and 0), decode one block at the
handle position, and reset the within-block cursor to 0. -/
def BgzfReader._load_block (r : BgzfReader) (decompress : List Nat → List Nat)
    (start_offset : Option Nat) : Except PErr BgzfReader :=
  let p0 := match start_offset with
    | some so => if so ≠ 0 then so else r.pos
    | none => r.pos
  match _load_bgzf_block decompress r.stream p0 with
  | .error e => .error e
  | .ok ((start, bsize, data), p1) =>
    .ok { r with pos := p1, block_start_offset := start, block_size := bsize,
                 buffer := data, within_block_offset := 0 }

/-- Model of BgzfReader.tell. -/
def BgzfReader.tell (r : BgzfReader) : Except PErr Nat :=
  make_virtual_offset r.block_start_offset r.within_block_offset

/-- Model of BgzfReader.read, source lines 301-312: a negative size raises
NotImplementedError and size 0 returns the empty string; any positive size
evaluates `self._with_block_offset + size` (line 306) first, and
_with_block_offset is never assigned anywhere in the class (_load_block
assigns _within_block_offset), so every positive-size read raises
AttributeError before any data can be returned. -/
def BgzfReader.read (r : BgzfReader) (size : Int) : Except PErr (List Nat × BgzfReader) :=
  if size < 0 then .error (.notImplementedError ("Do not be greedy, that could be massive!"))
  else if size = 0 then .ok ([], r)
  else .error (.attributeError ("_with_block_offset"))

/-- C6: the claim describes read(n) returning data within a block and
concatenating across block boundaries; in the source every read(n) with
n > 0 instead raises AttributeError, because line 306 reads the attribute
_with_block_offset, which no method ever assigns (the constructor's
_load_block assigns _within_block_offset). -/
theorem BgzfReader_read_attribute_error (r : BgzfReader) (size : Int) (h : 0 < size) :
    BgzfReader.read r size = .error (.attributeError ("_with_block_offset")) := by
  unfold BgzfReader.read
  rw [if_neg (by omega), if_neg (by omega)]

/-- Witness for C6: a concrete reader state with a loaded one-byte block and
a read of one byte. -/
theorem BgzfReader_read_attribute_error_witness :
    (0 : Int) < 1 ∧
      BgzfReader.read ⟨[0x1f], 0, 0, 27, [7], 0⟩ 1 =
        .error (.attributeError ("_with_block_offset")) :=
  ⟨by decide, BgzfReader_read_attribute_error ⟨[0x1f], 0, 0, 27, [7], 0⟩ 1 (by decide)⟩

/-! ## Inversion lemmas for the stream monad -/

theorem pbind_ok {α β : Type} {m : PM α} {f : α → PM β} {pos : Nat} {b : β} {p2 : Nat}
    (h : pbind m f pos = .ok (b, p2)) :
    ∃ a p1, m pos = .ok (a, p1) ∧ f a p1 = .ok (b, p2) := by
  unfold pbind at h
  match hm : m pos with
  | .error e => rw [hm] at h; cases h
  | .ok (a, p1) => rw [hm] at h; exact ⟨a, p1, rfl, h⟩

theorem pthrow_ok {α : Type} {e : PErr} {pos : Nat} {b : α} {p1 : Nat}
    (h : pthrow e pos = (.ok (b, p1) : Except PErr (α × Nat))) : False := by
  cases h

theorem ppure_ok {α : Type} {a : α} {pos : Nat} {b : α} {p1 : Nat}
    (h : ppure a pos = .ok (b, p1)) : b = a ∧ p1 = pos := by
  cases h
  exact ⟨rfl, rfl⟩

theorem pmTell_ok {pos b p1 : Nat} (h : pmTell pos = .ok (b, p1)) : b = pos ∧ p1 = pos := by
  cases h
  exact ⟨rfl, rfl⟩

theorem pmRead_ok {s : List Nat} {n pos : Nat} {bs : List Nat} {p1 : Nat}
    (h : pmRead s n pos = .ok (bs, p1)) :
    bs = (s.drop pos).take n ∧ p1 = pos + bs.length := by
  cases h
  exact ⟨rfl, rfl⟩

theorem pmReadAll_ok {s : List Nat} {pos : Nat} {bs : List Nat} {p1 : Nat}
    (h : pmReadAll s pos = .ok (bs, p1)) :
    bs = s.drop pos ∧ p1 = pos + bs.length := by
  cases h
  exact ⟨rfl, rfl⟩

theorem pliftE_ok {α : Type} {x : Except PErr α} {pos : Nat} {a : α} {p1 : Nat}
    (h : pliftE x pos = .ok (a, p1)) : x = .ok a ∧ p1 = pos := by
  cases x with
  | error e => unfold pliftE at h; cases h
  | ok v => unfold pliftE at h; cases h; exact ⟨rfl, rfl⟩

theorem unpackH_ok_length {raw : List Nat} {v : Nat} (h : unpackH raw = .ok v) :
    raw.length = 2 := by
  match raw with
  | [] => simp [unpackH] at h
  | [_] => simp [unpackH] at h
  | [_, _] => rfl
  | _ :: _ :: _ :: _ => simp [unpackH] at h

theorem unpackI_ok_length {raw : List Nat} {v : Nat} (h : unpackI raw = .ok v) :
    raw.length = 4 := by
  match raw with
  | [] => simp [unpackI] at h
  | [_] => simp [unpackI] at h
  | [_, _] => simp [unpackI] at h
  | [_, _, _] => simp [unpackI] at h
  | [_, _, _, _] => rfl
  | _ :: _ :: _ :: _ :: _ :: _ => simp [unpackI] at h

theorem leBytes4_length (n : Nat) : (leBytes4 n).length = 4 := rfl

/-- Length of a read result: min of the request and the remaining bytes. -/
theorem read_result_length (s : List Nat) (n pos : Nat) :
    ((s.drop pos).take n).length = min n (s.length - pos) := by
  rw [List.length_take, List.length_drop]

/-- Position accounting for the subfield loop: on success the final x_len is
at least the initial one, the position stays within the stream, and the
position either advanced by exactly the x_len growth (all reads complete) or
the stream was exhausted by a short subfield-data read. -/
theorem bc_loop_pos {s : List Nat} {extra_len : Nat} :
    ∀ (fuel : Nat) (block_size : Option Nat) (x_len pos : Nat)
      (res : Option Nat × Nat) (p1 : Nat),
      bc_subfield_loop s extra_len fuel block_size x_len pos = .ok (res, p1) →
      pos ≤ s.length →
      x_len ≤ res.2 ∧ p1 ≤ s.length ∧ (p1 = pos + (res.2 - x_len) ∨ p1 = s.length) := by
  intro fuel
  induction fuel with
  | zero =>
    intro block_size x_len pos res p1 h hpos
    unfold bc_subfield_loop at h
    split at h
    · cases h
    · cases h
      exact ⟨le_refl _, hpos, Or.inl (by omega)⟩
  | succ fuel ih =>
    intro block_size x_len pos res p1 h hpos
    unfold bc_subfield_loop at h
    split at h
    · obtain ⟨sid, pa, hr1, h⟩ := pbind_ok h
      obtain ⟨hsid, hpa⟩ := pmRead_ok hr1
      obtain ⟨slen, pb, hr2, h⟩ := pbind_ok h
      obtain ⟨raw, pb0, hraw, hunp⟩ := pbind_ok hr2
      obtain ⟨hraww, hpb0⟩ := pmRead_ok hraw
      obtain ⟨hunp2, hpb⟩ := pliftE_ok hunp
      have hrlen : raw.length = 2 := unpackH_ok_length hunp2
      obtain ⟨sdata, pc, hr3, h⟩ := pbind_ok h
      obtain ⟨hsdata, hpc⟩ := pmRead_ok hr3
      have hlsid : sid.length = min 2 (s.length - pos) := by
        rw [hsid, read_result_length]
      have hlraw : raw.length = min 2 (s.length - pa) := by
        rw [hraww, read_result_length]
      have hlsdata : sdata.length = min slen (s.length - pb) := by
        rw [hsdata, read_result_length]
      have hpcle : pc ≤ s.length := by omega
      split at h
      · split at h
        · split at h
          · obtain ⟨v, pc0, hv, hrec⟩ := pbind_ok h
            obtain ⟨_, hpc0⟩ := pliftE_ok hv
            have := ih _ _ _ _ _ hrec (by omega)
            omega
          · exact (pthrow_ok h).elim
        · exact (pthrow_ok h).elim
      · have := ih _ _ _ _ _ h hpcle
        omega
    · obtain ⟨h1, h2⟩ := ppure_ok h
      subst h1
      exact ⟨le_refl _, by omega, Or.inl (by omega)⟩

/-- A read result is at most the requested length, stays inside the stream,
and is short only when it exhausted the stream. -/
theorem read_facts {s : List Nat} {n pos : Nat} {bs : List Nat}
    (hbs : bs = (s.drop pos).take n) (hpos : pos ≤ s.length) :
    bs.length ≤ n ∧ pos + bs.length ≤ s.length ∧
      (bs.length < n → pos + bs.length = s.length) := by
  have hlen : bs.length = min n (s.length - pos) := by
    rw [hbs, read_result_length]
  omega

/-- A read that returned exactly the n bytes requested (n > 0) shows the
stream holds at least pos + n bytes. -/
theorem read_exact {s : List Nat} {n pos : Nat} {bs : List Nat}
    (hbs : bs = (s.drop pos).take n) (hlen : bs.length = n) :
    n = 0 ∨ pos + n ≤ s.length := by
  rw [hbs, read_result_length] at hlen
  omega

/-- The Int deflate size of the non-negative branch, as a Nat. -/
theorem deflate_size_toNat {bsz xl : Nat} (h : ¬((bsz : Int) - 1 - (xl : Int) - 19 < 0)) :
    ((bsz : Int) - 1 - (xl : Int) - 19).toNat = bsz - 20 - xl ∧ 20 + xl ≤ bsz := by
  omega

/-- Success inversion for _load_bgzf_block: a successfully decoded block
reports the start position it was called at, consumes exactly block_size
bytes (the BC-declared framed size), stays within the stream, and the last
eight consumed bytes are the trailer: four CRC bytes equal to the packed
CRC-32 of the returned data, then four bytes whose little-endian u32 value
is the returned data's length. -/
theorem load_bgzf_block_ok {d : List Nat → List Nat} {s : List Nat} {pos st bsz : Nat}
    {data : List Nat} {p1 : Nat}
    (h : _load_bgzf_block d s pos = .ok ((st, bsz, data), p1)) :
    st = pos ∧ p1 = pos + bsz ∧ p1 ≤ s.length ∧ 8 ≤ p1 ∧
      (s.drop (p1 - 8)).take 4 = leBytes4 (crc32 data) ∧
      unpackI ((s.drop (p1 - 4)).take 4) = .ok data.length := by
  unfold _load_bgzf_block at h
  replace h := pbind_ok h
  obtain ⟨start, q0, ht, h⟩ := h
  obtain ⟨hstart, hq0⟩ := pmTell_ok ht
  clear ht
  replace h := pbind_ok h
  obtain ⟨magic, q1, hm, h⟩ := h
  obtain ⟨hmagic, hq1⟩ := pmRead_ok hm
  clear hm
  split at h
  · exact (pthrow_ok h).elim
  · split at h
    · exact (pthrow_ok h).elim
    · rename_i hmagic_ne hmagic_eq
      have hmlen : magic.length = 4 := by
        have hmv : magic = [0x1f, 0x8b, 0x08, 0x04] := by
          by_contra hc
          exact hmagic_eq hc
        rw [hmv]
        rfl
      have hposL : q0 + 4 ≤ s.length := by
        rcases read_exact hmagic hmlen with hc | hc
        · omega
        · exact hc
      clear hmagic hmagic_ne hmagic_eq
      replace h := pbind_ok h
      obtain ⟨mt, q2, hmt, h⟩ := h
      obtain ⟨hmtv, hq2⟩ := pmRead_ok hmt
      clear hmt
      obtain ⟨hmt1, hmt2, hmt3⟩ := read_facts hmtv (by omega)
      clear hmtv
      replace h := pbind_ok h
      obtain ⟨fl, q3, hfl, h⟩ := h
      obtain ⟨hflv, hq3⟩ := pmRead_ok hfl
      clear hfl
      obtain ⟨hfl1, hfl2, hfl3⟩ := read_facts hflv (by omega)
      clear hflv
      replace h := pbind_ok h
      obtain ⟨osb, q4, hos, h⟩ := h
      obtain ⟨hosv, hq4⟩ := pmRead_ok hos
      clear hos
      obtain ⟨hos1, hos2, hos3⟩ := read_facts hosv (by omega)
      clear hosv
      replace h := pbind_ok h
      obtain ⟨extra_len, q5, hx, h⟩ := h
      replace hx := pbind_ok hx
      obtain ⟨xraw, q5a, hxr, hxu⟩ := hx
      obtain ⟨hxrv, hq5a⟩ := pmRead_ok hxr
      clear hxr
      obtain ⟨hxuv, hq5⟩ := pliftE_ok hxu
      clear hxu
      have hxlen : xraw.length = 2 := unpackH_ok_length hxuv
      have hxfull : q4 + 2 ≤ s.length := by
        rcases read_exact hxrv hxlen with hc | hc
        · omega
        · exact hc
      clear hxrv hxuv
      replace h := pbind_ok h
      obtain ⟨loop_res, q6, hloop, h⟩ := h
      have hloopfacts := bc_loop_pos _ _ _ _ _ _ hloop (by omega)
      clear hloop
      split at h
      · exact (pthrow_ok h).elim
      · rename_i hxeq
        have hxeq2 : loop_res.2 = extra_len := by
          by_contra hc
          exact hxeq hc
        clear hxeq
        match hb1 : loop_res.1 with
        | none =>
          rw [hb1] at h
          exact (pthrow_ok h).elim
        | some block_size =>
          rw [hb1] at h
          clear hb1
          unfold _load_bgzf_tail at h
          replace h := pbind_ok h
          obtain ⟨rawD, q7, hD, h⟩ := h
          replace h := pbind_ok h
          obtain ⟨dataD, q7b, hdataD, h⟩ := h
          obtain ⟨hdataDv, hq7b⟩ := ppure_ok hdataD
          clear hdataD
          replace h := pbind_ok h
          obtain ⟨crcB, q8, hcrc, h⟩ := h
          obtain ⟨hcrcv, hq8⟩ := pmRead_ok hcrc
          clear hcrc
          replace h := pbind_ok h
          obtain ⟨esz, q9, hsz, h⟩ := h
          replace hsz := pbind_ok hsz
          obtain ⟨szraw, q9a, hszr, hszu⟩ := hsz
          obtain ⟨hszrv, hq9a⟩ := pmRead_ok hszr
          obtain ⟨hszuv, hq9⟩ := pliftE_ok hszu
          clear hszu
          have hszlen : szraw.length = 4 := unpackI_ok_length hszuv
          have hszfull : q8 + 4 ≤ s.length := by
            rcases read_exact hszrv hszlen with hc | hc
            · omega
            · exact hc
          split at h
          · exact (pthrow_ok h).elim
          · rename_i hszeq
            split at h
            · exact (pthrow_ok h).elim
            · rename_i hcrceq
              have hszeq2 : esz = dataD.length := by
                by_contra hc
                exact hszeq hc
              have hcrceq2 : crcB = leBytes4 (crc32 dataD) := by
                by_contra hc
                exact hcrceq hc
              clear hszeq hcrceq
              obtain ⟨hres, hp1⟩ := ppure_ok h
              clear h
              have hst : st = start := congrArg Prod.fst hres
              have hbszv : bsz = block_size := congrArg Prod.fst (congrArg Prod.snd hres)
              have hdata : data = dataD := congrArg Prod.snd (congrArg Prod.snd hres)
              clear hres
              have hcrclen4 : crcB.length = 4 := by
                rw [hcrceq2, leBytes4_length]
              split at hD
              · -- negative deflate size reads the rest; the trailer reads then
                -- start at the end of the stream and cannot be four bytes long
                obtain ⟨hDv, hq7⟩ := pmReadAll_ok hD
                have hDlenAll : rawD.length = s.length - q6 := by
                  rw [hDv, List.length_drop]
                have hq6L : q6 ≤ s.length := hloopfacts.2.1
                omega
              · obtain ⟨hDv, hq7⟩ := pmRead_ok hD
                rename_i hnneg
                obtain ⟨hdn, hbsz20⟩ := deflate_size_toNat hnneg
                rw [hdn] at hDv
                obtain ⟨hD1, hD2, hD3⟩ := read_facts hDv hloopfacts.2.1
                clear hDv hnneg hdn
                subst hst hbszv hdata hstart
                refine ⟨rfl, by omega, by omega, by omega, ?_, ?_⟩
                · have hq7val : q7b = p1 - 8 := by omega
                  rw [← hq7val, ← hcrcv, hcrceq2, hdataDv]
                · have hq8val : q8 = p1 - 4 := by omega
                  rw [← hq8val, ← hszrv, hszuv, hszeq2, hdataDv]

/-! ## A concrete invertible compressor for witnesses

The round-trip theorems are parametric in the raw-DEFLATE pair; to witness
them on concrete inputs we need a computable pair that is an inverse on all
byte strings and always outputs a single element (model bytes are
unbounded naturals, so one element can carry a whole list). -/

/-- Encode a byte list into one natural number via Nat.pair. -/
def encodeL (l : List Nat) : Nat := l.foldr (fun a n => Nat.pair a n + 1) 0

/-- Decode encodeL, with fuel for structural recursion. -/
def decodeL : Nat → Nat → List Nat
  | 0, _ => []
  | fuel + 1, n =>
    match n with
    | 0 => []
    | m + 1 => (Nat.unpair m).1 :: decodeL fuel (Nat.unpair m).2

theorem decodeL_encodeL : ∀ (l : List Nat) (fuel : Nat), encodeL l ≤ fuel →
    decodeL fuel (encodeL l) = l := by
  intro l
  induction l with
  | nil =>
    intro fuel _
    cases fuel <;> rfl
  | cons a t ih =>
    intro fuel hfuel
    have henc : encodeL (a :: t) = Nat.pair a (encodeL t) + 1 := rfl
    rw [henc] at hfuel ⊢
    match fuel, hfuel with
    | f + 1, hfuel =>
      show (Nat.unpair (Nat.pair a (encodeL t))).1 ::
          decodeL f (Nat.unpair (Nat.pair a (encodeL t))).2 = a :: t
      rw [Nat.unpair_pair]
      have ht : encodeL t ≤ f := by
        have := Nat.right_le_pair a (encodeL t)
        omega
      rw [ih f ht]

/-- The witness compressor: the whole input as one big byte. -/
def cEnc (l : List Nat) : List Nat := [encodeL l]

/-- The witness decompressor, inverse of cEnc. -/
def cDec (l : List Nat) : List Nat :=
  match l with
  | [n] => decodeL n n
  | _ => []

theorem cDec_cEnc (l : List Nat) : cDec (cEnc l) = l :=
  decodeL_encodeL l (encodeL l) (le_refl _)

/-- C10: whenever _load_bgzf_block returns (start_offset, block_size, data),
the start equals the position it was called at and the handle position on
return is start_offset + block_size, so repeated calls (as in BgzfBlocks)
enumerate consecutive contiguous blocks without seeking. -/
theorem load_bgzf_block_consumes_framed_size {d : List Nat → List Nat} {s : List Nat}
    {pos st bsz : Nat} {data : List Nat} {p1 : Nat}
    (h : _load_bgzf_block d s pos = .ok ((st, bsz, data), p1)) :
    st = pos ∧ p1 = pos + bsz :=
  ⟨(load_bgzf_block_ok h).1, (load_bgzf_block_ok h).2.1⟩

/-- Witness for C10: decoding the concrete empty-payload block (27 bytes
under the witness compressor) from position 0 consumes exactly its declared
block size. -/
theorem load_bgzf_block_consumes_framed_size_witness :
    _load_bgzf_block cDec (blockBytes cEnc []) 0 = .ok ((0, 27, ([] : List Nat)), 27)
    ∧ (27 : Nat) = 0 + 27 := by
  have h : _load_bgzf_block cDec (blockBytes cEnc []) 0 = .ok ((0, 27, ([] : List Nat)), 27) := by
    rfl
  exact ⟨h, (load_bgzf_block_consumes_framed_size h).2⟩

/-- C5: decode failure modes.  (a) zero bytes available at a block boundary
give the clean StopIteration end-of-stream signal, not an error class;
(b) bytes present whose first four are not 1F 8B 08 04 give ValueError;
(c) a decode never returns data whose length or CRC-32 disagrees with the
trailer it consumed: on success the four CRC bytes it read (at p1 - 8) are
exactly the packed CRC-32 of the returned data and the four length bytes
(at p1 - 4) unpack to exactly the returned data's length, so any mismatch
was rejected (with AssertionError) rather than returned. -/
theorem load_bgzf_block_failure_modes (d : List Nat → List Nat) (s : List Nat) (pos : Nat) :
    (s.drop pos = [] → _load_bgzf_block d s pos = .error .stopIteration)
    ∧ (s.drop pos ≠ [] → (s.drop pos).take 4 ≠ [0x1f, 0x8b, 0x08, 0x04] →
        _load_bgzf_block d s pos =
          .error (.valueError ("A BGZF (e.g. a BAM file) block should start with hex 1f 8b 08 04")))
    ∧ (∀ st bsz data p1, _load_bgzf_block d s pos = .ok ((st, bsz, data), p1) →
        (s.drop (p1 - 8)).take 4 = leBytes4 (crc32 data)
        ∧ unpackI ((s.drop (p1 - 4)).take 4) = .ok data.length) := by
  refine ⟨?_, ?_, ?_⟩
  · intro hnil
    simp only [_load_bgzf_block, pbind, pmTell, pmRead, pthrow, hnil, List.take_nil,
      List.length_nil, Nat.add_zero, if_pos]
  · intro hne hne4
    have hmagic_ne : (s.drop pos).take 4 ≠ [] := by
      intro hc
      rcases List.take_eq_nil_iff.mp hc with h4 | hdrop
      · cases h4
      · exact hne hdrop
    simp only [_load_bgzf_block, pbind, pmTell, pmRead, pthrow]
    rw [if_neg hmagic_ne, if_pos hne4]
    rfl
  · intro st bsz data p1 h
    exact ⟨(load_bgzf_block_ok h).2.2.2.2.1, (load_bgzf_block_ok h).2.2.2.2.2⟩

/-- Witness for C5: the empty stream gives StopIteration; a stream starting
with bytes other than the magic gives ValueError; the concrete well-formed
empty-payload block decodes with its trailer matching the returned data. -/
theorem load_bgzf_block_failure_modes_witness :
    _load_bgzf_block cDec [] 0 = .error .stopIteration
    ∧ _load_bgzf_block cDec [1, 2, 3] 0 =
        .error (.valueError ("A BGZF (e.g. a BAM file) block should start with hex 1f 8b 08 04"))
    ∧ ((blockBytes cEnc []).drop (27 - 8)).take 4 = leBytes4 (crc32 ([] : List Nat))
    ∧ unpackI (((blockBytes cEnc []).drop (27 - 4)).take 4) = .ok ([] : List Nat).length := by
  refine ⟨(load_bgzf_block_failure_modes cDec [] 0).1 (by rfl),
    (load_bgzf_block_failure_modes cDec [1, 2, 3] 0).2.1 (by decide) (by decide), ?_, ?_⟩
  · exact ((load_bgzf_block_failure_modes cDec (blockBytes cEnc []) 0).2.2 0 27 [] 27 (by rfl)).1
  · exact ((load_bgzf_block_failure_modes cDec (blockBytes cEnc []) 0).2.2 0 27 [] 27 (by rfl)).2

/-- Length of a framed block: fixed 26 bytes of header, BC payload and
trailer, plus the compressed payload. -/
theorem blockBytes_length (c : List Nat → List Nat) (block : List Nat) :
    (blockBytes c block).length = 26 + (c block).length := by
  simp [blockBytes, leBytes2, leBytes4]
  omega

/-- _write_block succeeds and appends exactly the framed block whenever the
input fits a block and the compressed payload passes both the 65536 assert
and the 16-bit BC pack. -/
theorem write_block_ok (w : BgzfWriter) (c : List Nat → List Nat) (block : List Nat)
    (h1 : block.length ≤ 65536) (h2 : (c block).length + 25 < 65536) :
    BgzfWriter._write_block w c block = .ok ⟨w.handle ++ blockBytes c block, w.buffer⟩ := by
  unfold BgzfWriter._write_block
  rw [if_pos h1, if_pos (show (c block).length < 65536 by omega)]
  unfold packH
  rw [if_pos h2]

/-- C4 (amended): for payloads of at most 65536 bytes whose compressed form
is at most 65510 bytes (so that the BC value compressed+25 fits 16 bits),
the emitted block's total on-wire size is 12 (header) + 6 (extra subfield)
+ len(compressed) + 4 (CRC) + 4 (length), and the two BC payload bytes
(offsets 16-17) are the little-endian u16 of exactly that total minus 1. -/
theorem block_framing_self_description (c : List Nat → List Nat) (block : List Nat)
    (w : BgzfWriter) (h1 : block.length ≤ 65536) (h2 : (c block).length + 25 < 65536) :
    BgzfWriter._write_block w c block = .ok ⟨w.handle ++ blockBytes c block, w.buffer⟩
    ∧ (blockBytes c block).length = 12 + 6 + (c block).length + 4 + 4
    ∧ ((blockBytes c block).drop 16).take 2 = leBytes2 ((blockBytes c block).length - 1) := by
  refine ⟨write_block_ok w c block h1 h2, ?_, ?_⟩
  · rw [blockBytes_length]
    omega
  · have htake : ((blockBytes c block).drop 16).take 2 = leBytes2 ((c block).length + 25) := rfl
    rw [htake, blockBytes_length]
    have h26 : 26 + (c block).length - 1 = (c block).length + 25 := by omega
    rw [h26]

/-- Witness for C4 at the 3-byte payload of the spec's scenario under the
witness compressor. -/
theorem block_framing_self_description_witness :
    BgzfWriter._write_block ⟨[], []⟩ cEnc [97, 98, 99] =
      .ok ⟨[] ++ blockBytes cEnc [97, 98, 99], []⟩
    ∧ (blockBytes cEnc [97, 98, 99]).length = 12 + 6 + (cEnc [97, 98, 99]).length + 4 + 4
    ∧ ((blockBytes cEnc [97, 98, 99]).drop 16).take 2 =
        leBytes2 ((blockBytes cEnc [97, 98, 99]).length - 1) :=
  block_framing_self_description cEnc [97, 98, 99] ⟨[], []⟩ (by decide)
    (by decide)

/-- A compressed payload of exactly 65535 bytes passes the assert
(65535 < 65536) but overflows struct.pack("<H", 65535 + 25). -/
theorem write_block_pack_overflow (w : BgzfWriter) (c : List Nat → List Nat)
    (block : List Nat) (h1 : block.length ≤ 65536) (h2 : (c block).length = 65535) :
    BgzfWriter._write_block w c block = .error .structError := by
  unfold BgzfWriter._write_block
  rw [if_pos h1, if_pos (by omega)]
  unfold packH
  rw [if_neg (by omega)]

/-- C4 counterexample: the claim as stated admits every compressed form
smaller than 65536 bytes, but a compressed payload of 65535 bytes passes
the source's own assert (65535 < 65536) and then crashes in
struct.pack("<H", 65535 + 25), so no framed block is produced at all. -/
theorem block_framing_counterexample :
    BgzfWriter._write_block ⟨[], []⟩ (fun _ => List.replicate 65535 0) [0] =
      .error .structError
    ∧ (List.replicate 65535 (0 : Nat)).length < 65536 := by
  constructor
  · apply write_block_pack_overflow ⟨[], []⟩ (fun _ => List.replicate 65535 0) [0]
    · norm_num
    · show (List.replicate 65535 (0 : Nat)).length = 65535
      rw [List.length_replicate]
  · rw [List.length_replicate]
    norm_num

/-! ## Chunking specifications for the writer loops -/

/-- The payload chunks a writer loop slices off: chunks of k bytes while the
buffer holds at least 65536 (k is 65536 in write, 65535 in flush). -/
def chunk_payloads (k : Nat) : Nat → List Nat → List (List Nat)
  | 0, _ => []
  | fuel + 1, buf =>
    if 65536 ≤ buf.length then buf.take k :: chunk_payloads k fuel (buf.drop k) else []

/-- What remains in the buffer after a writer loop. -/
def chunk_rest (k : Nat) : Nat → List Nat → List Nat
  | 0, buf => buf
  | fuel + 1, buf =>
    if 65536 ≤ buf.length then chunk_rest k fuel (buf.drop k) else buf

/-- Chunks plus remainder reassemble the buffer. -/
theorem chunk_append (k : Nat) :
    ∀ (fuel : Nat) (buf : List Nat),
      (chunk_payloads k fuel buf).flatten ++ chunk_rest k fuel buf = buf := by
  intro fuel
  induction fuel with
  | zero => intro buf; rfl
  | succ fuel ih =>
    intro buf
    unfold chunk_payloads chunk_rest
    split
    · rw [List.flatten_cons, List.append_assoc, ih, List.take_append_drop]
    · rfl

/-- With k at least 1 and fuel at least the buffer length, the remainder is
a partial chunk. -/
theorem chunk_rest_short (k : Nat) (hk : 1 ≤ k) :
    ∀ (fuel : Nat) (buf : List Nat), buf.length ≤ fuel →
      (chunk_rest k fuel buf).length < 65536 := by
  intro fuel
  induction fuel with
  | zero =>
    intro buf h
    unfold chunk_rest
    omega
  | succ fuel ih =>
    intro buf h
    unfold chunk_rest
    split
    · exact ih _ (by rw [List.length_drop]; omega)
    · omega

/-- Every chunk is at most k bytes. -/
theorem chunk_payloads_length (k : Nat) :
    ∀ (fuel : Nat) (buf p : List Nat), p ∈ chunk_payloads k fuel buf → p.length ≤ k := by
  intro fuel
  induction fuel with
  | zero => intro buf p h; cases h
  | succ fuel ih =>
    intro buf p h
    unfold chunk_payloads at h
    split at h
    · rcases List.mem_cons.mp h with h1 | h1
      · rw [h1, List.length_take]
        omega
      · exact ih _ _ h1
    · cases h

/-- The flush loop writes 65535-byte chunks of the buffer while at least
65536 bytes remain, leaving the remainder buffered (source lines 380-382). -/
theorem flush_loop_ok (c : List Nat → List Nat)
    (hc : ∀ l : List Nat, l.length ≤ 65536 → (c l).length + 25 < 65536) :
    ∀ (fuel : Nat) (w : BgzfWriter), w.buffer.length ≤ fuel →
      flush_loop c fuel w =
        .ok ⟨w.handle ++ ((chunk_payloads 65535 fuel w.buffer).map (blockBytes c)).flatten,
             chunk_rest 65535 fuel w.buffer⟩ := by
  intro fuel
  induction fuel with
  | zero =>
    intro w h
    unfold flush_loop chunk_payloads chunk_rest
    rw [if_neg (by omega)]
    show _ = Except.ok ⟨w.handle ++ [], w.buffer⟩
    rw [List.append_nil]
  | succ fuel ih =>
    intro w h
    unfold flush_loop chunk_payloads chunk_rest
    split
    · rename_i hge
      rw [write_block_ok w c (w.buffer.take 65535)
          (by rw [List.length_take]; omega)
          (hc _ (by rw [List.length_take]; omega))]
      refine (ih ⟨w.handle ++ blockBytes c (w.buffer.take 65535), w.buffer.drop 65535⟩
          (by rw [List.length_drop]; omega)).trans ?_
      rw [List.map_cons, List.flatten_cons, ← List.append_assoc]
    · show _ = Except.ok ⟨w.handle ++ [], w.buffer⟩
      rw [List.append_nil]

/-- The write loop writes 65536-byte chunks of the buffer while at least
65536 bytes remain, leaving the remainder buffered (source lines 375-377). -/
theorem write_loop_ok (c : List Nat → List Nat)
    (hc : ∀ l : List Nat, l.length ≤ 65536 → (c l).length + 25 < 65536) :
    ∀ (fuel : Nat) (w : BgzfWriter), w.buffer.length ≤ fuel →
      write_loop c fuel w =
        .ok ⟨w.handle ++ ((chunk_payloads 65536 fuel w.buffer).map (blockBytes c)).flatten,
             chunk_rest 65536 fuel w.buffer⟩ := by
  intro fuel
  induction fuel with
  | zero =>
    intro w h
    unfold write_loop chunk_payloads chunk_rest
    rw [if_neg (by omega)]
    show _ = Except.ok ⟨w.handle ++ [], w.buffer⟩
    rw [List.append_nil]
  | succ fuel ih =>
    intro w h
    unfold write_loop chunk_payloads chunk_rest
    split
    · rename_i hge
      rw [write_block_ok w c (w.buffer.take 65536)
          (by rw [List.length_take]; omega)
          (hc _ (by rw [List.length_take]; omega))]
      refine (ih ⟨w.handle ++ blockBytes c (w.buffer.take 65536), w.buffer.drop 65536⟩
          (by rw [List.length_drop]; omega)).trans ?_
      rw [List.map_cons, List.flatten_cons, ← List.append_assoc]
    · show _ = Except.ok ⟨w.handle ++ [], w.buffer⟩
      rw [List.append_nil]

/-- Unfold one iteration of the chunk spec when the buffer is full enough. -/
theorem chunk_payloads_pos (k fuel : Nat) (buf : List Nat) (hf : fuel ≠ 0)
    (h : 65536 ≤ buf.length) :
    chunk_payloads k fuel buf = buf.take k :: chunk_payloads k (fuel - 1) (buf.drop k) := by
  match fuel, hf with
  | f + 1, _ =>
    conv_lhs => unfold chunk_payloads
    rw [if_pos h, show f + 1 - 1 = f by omega]

/-- The chunk spec stops on a buffer below 65536 bytes. -/
theorem chunk_payloads_stop (k fuel : Nat) (buf : List Nat) (h : buf.length < 65536) :
    chunk_payloads k fuel buf = [] := by
  cases fuel
  · rfl
  · unfold chunk_payloads
    rw [if_neg (by omega)]

theorem chunk_rest_pos (k fuel : Nat) (buf : List Nat) (hf : fuel ≠ 0)
    (h : 65536 ≤ buf.length) :
    chunk_rest k fuel buf = chunk_rest k (fuel - 1) (buf.drop k) := by
  match fuel, hf with
  | f + 1, _ =>
    conv_lhs => unfold chunk_rest
    rw [if_pos h, show f + 1 - 1 = f by omega]

theorem chunk_rest_stop (k fuel : Nat) (buf : List Nat) (h : buf.length < 65536) :
    chunk_rest k fuel buf = buf := by
  cases fuel
  · rfl
  · unfold chunk_rest
    rw [if_neg (by omega)]

/-- BgzfWriter.flush always succeeds (under the compressor size hypothesis):
it drains 65535-byte chunks while at least 65536 bytes are buffered, then
emits the remainder as a final block and clears the buffer. -/
theorem flush_ok (c : List Nat → List Nat)
    (hc : ∀ l : List Nat, l.length ≤ 65536 → (c l).length + 25 < 65536)
    (w : BgzfWriter) :
    BgzfWriter.flush w c =
      .ok ⟨w.handle ++ ((chunk_payloads 65535 w.buffer.length w.buffer).map (blockBytes c)).flatten
            ++ blockBytes c (chunk_rest 65535 w.buffer.length w.buffer), []⟩ := by
  unfold BgzfWriter.flush
  rw [ebind_ok (flush_loop_ok c hc w.buffer.length w (le_refl _))]
  have hrest : (chunk_rest 65535 w.buffer.length w.buffer).length < 65536 :=
    chunk_rest_short 65535 (by omega) _ _ (le_refl _)
  rw [ebind_ok (write_block_ok
      ⟨w.handle ++ ((chunk_payloads 65535 w.buffer.length w.buffer).map (blockBytes c)).flatten,
        chunk_rest 65535 w.buffer.length w.buffer⟩ c
      (chunk_rest 65535 w.buffer.length w.buffer) (by omega) (hc _ (by omega)))]

/-- The witness compressor always outputs one element, so it satisfies the
framing size bound on every input. -/
theorem cEnc_short : ∀ l : List Nat, l.length ≤ 65536 → (cEnc l).length + 25 < 65536 := by
  intro l _
  show 1 + 25 < 65536
  norm_num

/-- C9 (amended): flush() drains 65535-byte (not 65536-byte) chunks while
the pending buffer holds at least 65536 bytes, then encodes and emits the
remaining partial chunk as a final block even when the buffer is empty —
so flushing twice with no intervening write emits two empty terminator
blocks back-to-back — and leaves the pending buffer empty. -/
theorem flush_emits_chunks_then_final (c : List Nat → List Nat) (w : BgzfWriter)
    (hc : ∀ l : List Nat, l.length ≤ 65536 → (c l).length + 25 < 65536) :
    BgzfWriter.flush w c =
      .ok ⟨w.handle ++ ((chunk_payloads 65535 w.buffer.length w.buffer).map (blockBytes c)).flatten
            ++ blockBytes c (chunk_rest 65535 w.buffer.length w.buffer), []⟩
    ∧ (w.buffer = [] → BgzfWriter.flush w c = .ok ⟨w.handle ++ blockBytes c [], []⟩)
    ∧ (w.buffer = [] →
        ebind (BgzfWriter.flush w c) (fun w1 => BgzfWriter.flush w1 c) =
          .ok ⟨w.handle ++ blockBytes c [] ++ blockBytes c [], []⟩) := by
  have hempty : ∀ v : BgzfWriter, v.buffer = [] →
      BgzfWriter.flush v c = .ok ⟨v.handle ++ blockBytes c [], []⟩ := by
    intro v hv
    have h := flush_ok c hc v
    rw [hv] at h
    rw [chunk_payloads_stop 65535 _ _ (by norm_num), chunk_rest_stop 65535 _ _ (by norm_num),
      List.map_nil, List.flatten_nil, List.append_nil] at h
    exact h
  refine ⟨flush_ok c hc w, fun hb => hempty w hb, fun hb => ?_⟩
  rw [ebind_ok (hempty w hb)]
  exact hempty ⟨w.handle ++ blockBytes c [], []⟩ rfl

/-- Witness for C9 on a writer with an empty pending buffer and one byte
already in the sink. -/
theorem flush_emits_chunks_then_final_witness :
    BgzfWriter.flush ⟨[5], []⟩ cEnc =
      .ok ⟨[5] ++ ((chunk_payloads 65535 0 []).map (blockBytes cEnc)).flatten
            ++ blockBytes cEnc (chunk_rest 65535 0 []), []⟩
    ∧ BgzfWriter.flush ⟨[5], []⟩ cEnc = .ok ⟨[5] ++ blockBytes cEnc [], []⟩
    ∧ ebind (BgzfWriter.flush ⟨[5], []⟩ cEnc) (fun w1 => BgzfWriter.flush w1 cEnc) =
        .ok ⟨[5] ++ blockBytes cEnc [] ++ blockBytes cEnc [], []⟩ := by
  have h := flush_emits_chunks_then_final cEnc ⟨[5], []⟩ cEnc_short
  exact ⟨h.1, h.2.1 rfl, h.2.2 rfl⟩

/-- C9 counterexample: the claim as stated says flush slices complete
65536-byte chunks; on a pending buffer of exactly 65536 bytes the source
instead emits a first block of 65535 bytes followed by a 1-byte block
(lines 381-382 slice at 65535), not a 65536-byte block and an empty one. -/
theorem flush_chunk_counterexample :
    BgzfWriter.flush ⟨[], List.replicate 65536 0⟩ (fun _ => []) =
      .ok ⟨blockBytes (fun _ => []) (List.replicate 65535 0)
            ++ blockBytes (fun _ => []) [0], []⟩
    ∧ List.replicate 65535 (0 : Nat) ≠ List.replicate 65536 0 := by
  constructor
  · have hc0 : ∀ l : List Nat, l.length ≤ 65536 →
        ((fun _ => ([] : List Nat)) l).length + 25 < 65536 := by
      intro l _
      show 0 + 25 < 65536
      norm_num
    have h := flush_ok (fun _ => []) hc0 ⟨[], List.replicate 65536 0⟩
    have hblen : (⟨[], List.replicate 65536 0⟩ : BgzfWriter).buffer.length = 65536 := by
      show (List.replicate 65536 (0 : Nat)).length = 65536
      rw [List.length_replicate]
    have hbuf : (⟨[], List.replicate 65536 0⟩ : BgzfWriter).buffer = List.replicate 65536 0 :=
      rfl
    have hhd : (⟨[], List.replicate 65536 0⟩ : BgzfWriter).handle = ([] : List Nat) := rfl
    rw [hblen, hbuf, hhd] at h
    have hge : 65536 ≤ (List.replicate 65536 (0 : Nat)).length := by
      rw [List.length_replicate]
    have htake : (List.replicate 65536 (0 : Nat)).take 65535 = List.replicate 65535 0 := by
      rw [List.take_replicate]
      norm_num
    have hdrop : (List.replicate 65536 (0 : Nat)).drop 65535 = [0] := by
      rw [List.drop_replicate]
      norm_num
    rw [chunk_payloads_pos 65535 65536 _ (by norm_num) hge,
      chunk_rest_pos 65535 65536 _ (by norm_num) hge, htake, hdrop] at h
    rw [chunk_payloads_stop 65535 _ [0] (by norm_num),
      chunk_rest_stop 65535 _ [0] (by norm_num)] at h
    rw [List.map_cons, List.map_nil, List.flatten_cons, List.flatten_nil,
      List.append_nil, List.nil_append] at h
    exact h
  · intro hEq
    have := congrArg List.length hEq
    rw [List.length_replicate, List.length_replicate] at this
    omega

/-! ## Forward evaluation of the decoder on a well-formed framed block -/

theorem pbind_eq {α β : Type} {m : PM α} {f : α → PM β} {pos : Nat} {a : α} {p1 : Nat}
    (h : m pos = .ok (a, p1)) : pbind m f pos = f a p1 := by
  unfold pbind
  rw [h]

theorem pmRead_spec (n : Nat) (bs : List Nat) {s : List Nat} {pos : Nat} {t : List Nat}
    (hdrop : s.drop pos = t) (hbs : t.take n = bs) (hlen : bs.length = n) :
    pmRead s n pos = .ok (bs, pos + n) := by
  show Except.ok ((s.drop pos).take n, pos + ((s.drop pos).take n).length) = _
  rw [hdrop, hbs, hlen]

theorem unpackH_leBytes2 {n : Nat} (h : n < 65536) : unpackH (leBytes2 n) = .ok n := by
  show Except.ok (n % 256 + 256 * (n / 256 % 256)) = _
  rw [show n % 256 + 256 * (n / 256 % 256) = n by omega]

theorem unpackI_leBytes4 {n : Nat} (h : n < 4294967296) : unpackI (leBytes4 n) = .ok n := by
  show Except.ok (n % 256 + 256 * (n / 256 % 256) + 65536 * (n / 65536 % 256)
    + 16777216 * (n / 16777216 % 256)) = _
  rw [show n % 256 + 256 * (n / 256 % 256) + 65536 * (n / 65536 % 256)
    + 16777216 * (n / 16777216 % 256) = n by omega]

/-- The subfield loop returns as soon as x_len has reached extra_len. -/
theorem bc_loop_done (s : List Nat) (extra_len fuel : Nat) (bs : Option Nat) (x_len pos : Nat)
    (h : ¬ x_len < extra_len) :
    bc_subfield_loop s extra_len fuel bs x_len pos = .ok ((bs, x_len), pos) := by
  cases fuel
  · unfold bc_subfield_loop
    rw [if_neg h]
  · unfold bc_subfield_loop
    rw [if_neg h]
    rfl

/-- On the canonical single-BC extra field the writer emits (id 42 43,
length 02 00, two payload bytes), the subfield loop returns block size
x + 1 after consuming exactly six bytes. -/
theorem bc_loop_bgzf (s : List Nat) (fuel : Nat) (pos x : Nat) (tail : List Nat)
    (hx : x < 65536)
    (hdrop : s.drop pos = 0x42 :: 0x43 :: 0x02 :: 0x00 :: (leBytes2 x ++ tail)) :
    bc_subfield_loop s 6 (fuel + 1) none 0 pos = .ok ((some (x + 1), 6), pos + 6) := by
  unfold bc_subfield_loop
  rw [if_pos (by norm_num : (0 : Nat) < 6)]
  rw [pbind_eq (pmRead_spec 2 [0x42, 0x43] hdrop rfl rfl)]
  have hdrop2 : s.drop (pos + 2) = 0x02 :: 0x00 :: (leBytes2 x ++ tail) := by
    rw [← List.drop_drop, hdrop]
    rfl
  have hinner : (pbind (pmRead s 2) fun raw => pliftE (unpackH raw)) (pos + 2) =
      .ok (2, pos + 2 + 2) := by
    rw [pbind_eq (pmRead_spec 2 [0x02, 0x00] hdrop2 rfl rfl)]
    rfl
  rw [pbind_eq hinner]
  have hdrop4 : s.drop (pos + 2 + 2) = leBytes2 x ++ tail := by
    rw [← List.drop_drop, hdrop2]
    rfl
  rw [pbind_eq (pmRead_spec 2 (leBytes2 x) hdrop4 rfl rfl)]
  rw [if_pos rfl, if_pos rfl, if_pos rfl]
  have hlift : pliftE (unpackH (leBytes2 x)) (pos + 2 + 2 + 2) =
      .ok (x, pos + 2 + 2 + 2) := by
    rw [unpackH_leBytes2 hx]
    rfl
  rw [pbind_eq hlift]
  exact bc_loop_done s 6 fuel (some (x + 1)) 6 (pos + 6) (by norm_num)

/-- Decoding a stream at the start of a framed block produced by the writer
recovers exactly the block's payload, reports block size compressed+26, and
leaves the position at the start of the next block. -/
theorem blockBytes_decode (c d : List Nat → List Nat) (p pre rest : List Nat)
    (hp : p.length ≤ 65536) (hclen : (c p).length + 25 < 65536) (hd : d (c p) = p) :
    _load_bgzf_block d (pre ++ (blockBytes c p ++ rest)) pre.length =
      .ok ((pre.length, (c p).length + 26, p), pre.length + ((c p).length + 26)) := by
  set s := pre ++ (blockBytes c p ++ rest) with hs
  have hd0 : s.drop pre.length = blockBytes c p ++ rest := List.drop_left pre _
  unfold _load_bgzf_block
  rw [pbind_eq (rfl : pmTell pre.length = .ok (pre.length, pre.length))]
  rw [pbind_eq (pmRead_spec 4 [0x1f, 0x8b, 0x08, 0x04] hd0 rfl rfl)]
  rw [if_neg (by decide : ¬([0x1f, 0x8b, 0x08, 0x04] : List Nat) = [])]
  rw [if_neg (by decide : ¬([0x1f, 0x8b, 0x08, 0x04] : List Nat) ≠ [0x1f, 0x8b, 0x08, 0x04])]
  have hd4 : s.drop (pre.length + 4) =
      0x00 :: 0x00 :: 0x00 :: 0x00 :: 0x00 :: 0xff :: 0x06 :: 0x00 ::
      0x42 :: 0x43 :: 0x02 :: 0x00 ::
      ((((leBytes2 ((c p).length + 25) ++ c p) ++ leBytes4 (crc32 p &&& 4294967295))
        ++ leBytes4 p.length) ++ rest) := by
    rw [← List.drop_drop, hd0]
    rfl
  rw [pbind_eq (pmRead_spec 4 [0x00, 0x00, 0x00, 0x00] hd4 rfl rfl)]
  have hd8 : s.drop (pre.length + 4 + 4) =
      0x00 :: 0xff :: 0x06 :: 0x00 :: 0x42 :: 0x43 :: 0x02 :: 0x00 ::
      ((((leBytes2 ((c p).length + 25) ++ c p) ++ leBytes4 (crc32 p &&& 4294967295))
        ++ leBytes4 p.length) ++ rest) := by
    rw [← List.drop_drop, hd4]
    rfl
  rw [pbind_eq (pmRead_spec 1 [0x00] hd8 rfl rfl)]
  have hd9 : s.drop (pre.length + 4 + 4 + 1) =
      0xff :: 0x06 :: 0x00 :: 0x42 :: 0x43 :: 0x02 :: 0x00 ::
      ((((leBytes2 ((c p).length + 25) ++ c p) ++ leBytes4 (crc32 p &&& 4294967295))
        ++ leBytes4 p.length) ++ rest) := by
    rw [← List.drop_drop, hd8]
    rfl
  rw [pbind_eq (pmRead_spec 1 [0xff] hd9 rfl rfl)]
  have hd10 : s.drop (pre.length + 4 + 4 + 1 + 1) =
      0x06 :: 0x00 :: 0x42 :: 0x43 :: 0x02 :: 0x00 ::
      ((((leBytes2 ((c p).length + 25) ++ c p) ++ leBytes4 (crc32 p &&& 4294967295))
        ++ leBytes4 p.length) ++ rest) := by
    rw [← List.drop_drop, hd9]
    rfl
  have hx6 : (pbind (pmRead s 2) fun raw => pliftE (unpackH raw))
      (pre.length + 4 + 4 + 1 + 1) = .ok (6, pre.length + 4 + 4 + 1 + 1 + 2) := by
    rw [pbind_eq (pmRead_spec 2 [0x06, 0x00] hd10 rfl rfl)]
    rfl
  rw [pbind_eq hx6]
  have hd12 : s.drop (pre.length + 4 + 4 + 1 + 1 + 2) =
      0x42 :: 0x43 :: 0x02 :: 0x00 ::
      (leBytes2 ((c p).length + 25) ++
        (((c p ++ leBytes4 (crc32 p &&& 4294967295)) ++ leBytes4 p.length) ++ rest)) := by
    rw [← List.drop_drop, hd10]
    rfl
  have hloop : bc_subfield_loop s 6 6 none 0 (pre.length + 4 + 4 + 1 + 1 + 2) =
      .ok ((some ((c p).length + 25 + 1), 6), pre.length + 4 + 4 + 1 + 1 + 2 + 6) :=
    bc_loop_bgzf s 5 (pre.length + 4 + 4 + 1 + 1 + 2) ((c p).length + 25) _
      (by omega) hd12
  rw [pbind_eq hloop]
  rw [if_neg (show ¬((some ((c p).length + 25 + 1), (6 : Nat)).2 ≠ 6) from fun hh => hh rfl)]
  show _load_bgzf_tail d s pre.length ((c p).length + 25 + 1) 6
      (pre.length + 4 + 4 + 1 + 1 + 2 + 6) = _
  unfold _load_bgzf_tail
  rw [if_neg (by omega :
    ¬((((c p).length + 25 + 1 : Nat) : Int) - 1 - ((6 : Nat) : Int) - 19 < 0))]
  rw [show ((((c p).length + 25 + 1 : Nat) : Int) - 1 - ((6 : Nat) : Int) - 19).toNat
      = (c p).length by omega]
  have hd18L : s.drop (pre.length + 4 + 4 + 1 + 1 + 2 + 6) =
      ((c p ++ leBytes4 (crc32 p &&& 4294967295)) ++ leBytes4 p.length) ++ rest := by
    rw [← List.drop_drop, hd12]
    rfl
  have hd18 : s.drop (pre.length + 4 + 4 + 1 + 1 + 2 + 6) =
      c p ++ (leBytes4 (crc32 p &&& 4294967295) ++ (leBytes4 p.length ++ rest)) := by
    rw [hd18L, List.append_assoc, List.append_assoc]
  rw [pbind_eq (pmRead_spec ((c p).length) (c p) hd18 (List.take_left' rfl) rfl)]
  rw [pbind_eq (rfl : ppure (d (c p)) (pre.length + 4 + 4 + 1 + 1 + 2 + 6 + (c p).length)
      = .ok (d (c p), pre.length + 4 + 4 + 1 + 1 + 2 + 6 + (c p).length))]
  rw [hd]
  have hd18c : s.drop (pre.length + 4 + 4 + 1 + 1 + 2 + 6 + (c p).length) =
      leBytes4 (crc32 p &&& 4294967295) ++ (leBytes4 p.length ++ rest) := by
    rw [← List.drop_drop, hd18, List.drop_left' rfl]
  rw [pbind_eq (pmRead_spec 4 (leBytes4 (crc32 p &&& 4294967295)) hd18c
      (List.take_left' rfl) rfl)]
  have hd18d : s.drop (pre.length + 4 + 4 + 1 + 1 + 2 + 6 + (c p).length + 4) =
      leBytes4 p.length ++ rest := by
    rw [← List.drop_drop, hd18c,
      List.drop_left' (show (leBytes4 (crc32 p &&& 4294967295)).length = 4 from rfl)]
  have hsz : (pbind (pmRead s 4) fun raw2 => pliftE (unpackI raw2))
      (pre.length + 4 + 4 + 1 + 1 + 2 + 6 + (c p).length + 4) =
      .ok (p.length, pre.length + 4 + 4 + 1 + 1 + 2 + 6 + (c p).length + 4 + 4) := by
    rw [pbind_eq (pmRead_spec 4 (leBytes4 p.length) hd18d (List.take_left' rfl) rfl)]
    rw [unpackI_leBytes4 (by omega : p.length < 4294967296)]
    rfl
  rw [pbind_eq hsz]
  rw [if_neg (show ¬(p.length ≠ p.length) from fun hh => hh rfl)]
  rw [crc32_and_mask]
  rw [if_neg (show ¬(leBytes4 (crc32 p) ≠ leBytes4 (crc32 p)) from fun hh => hh rfl)]
  unfold ppure
  simp only [Except.ok.injEq, Prod.mk.injEq]
  exact ⟨trivial, by omega⟩

/-- Decoding a stream made of framed blocks (after an arbitrary prefix the
position sits at) concatenates their payloads and ends cleanly at the
stream's end. -/
theorem decode_all_loop_blocks (d c : List Nat → List Nat) :
    ∀ (ps : List (List Nat)) (pre acc : List Nat) (fuel : Nat),
      (∀ p ∈ ps, p.length ≤ 65536 ∧ (c p).length + 25 < 65536 ∧ d (c p) = p) →
      ps.length ≤ fuel →
      decode_all_loop d (pre ++ (ps.map (blockBytes c)).flatten) fuel pre.length acc =
        .ok (acc ++ ps.flatten) := by
  intro ps
  induction ps with
  | nil =>
    intro pre acc fuel _ _
    rw [List.map_nil, List.flatten_nil, List.append_nil, List.append_nil]
    have hstop := (load_bgzf_block_failure_modes d pre pre.length).1 (List.drop_length pre)
    cases fuel <;> (unfold decode_all_loop; rw [hstop])
  | cons p ps ih =>
    intro pre acc fuel hwf hfuel
    match fuel, hfuel with
    | f + 1, hfuel =>
      obtain ⟨hp1, hp2, hp3⟩ := hwf p (List.mem_cons_self p ps)
      have hwf2 : ∀ q ∈ ps, q.length ≤ 65536 ∧ (c q).length + 25 < 65536 ∧ d (c q) = q :=
        fun q hq => hwf q (List.mem_cons_of_mem p hq)
      rw [List.map_cons, List.flatten_cons, List.flatten_cons]
      unfold decode_all_loop
      rw [blockBytes_decode c d p pre ((ps.map (blockBytes c)).flatten) hp1 hp2 hp3]
      show decode_all_loop d (pre ++ (blockBytes c p ++ (ps.map (blockBytes c)).flatten)) f
          (pre.length + ((c p).length + 26)) (acc ++ p) = .ok (acc ++ (p ++ ps.flatten))
      rw [show pre ++ (blockBytes c p ++ (ps.map (blockBytes c)).flatten)
          = (pre ++ blockBytes c p) ++ (ps.map (blockBytes c)).flatten from
          (List.append_assoc _ _ _).symm]
      rw [show pre.length + ((c p).length + 26) = (pre ++ blockBytes c p).length from by
        rw [List.length_append, blockBytes_length]
        omega]
      refine (ih (pre ++ blockBytes c p) (acc ++ p) f hwf2 (by
        rw [List.length_cons] at hfuel
        omega)).trans ?_
      rw [List.append_assoc]

/-- Each framed block is non-empty, so the block count is bounded by the
stream length. -/
theorem map_blockBytes_flatten_length (c : List Nat → List Nat) :
    ∀ ps : List (List Nat), ps.length ≤ ((ps.map (blockBytes c)).flatten).length := by
  intro ps
  induction ps with
  | nil => simp
  | cons p t ih =>
    rw [List.map_cons, List.flatten_cons, List.length_append, List.length_cons,
      blockBytes_length]
    omega

/-- The write-then-flush pipeline of the C1 round trip: a fresh writer, one
write of the whole payload, then one flush; the emitted stream is returned. -/
def encode_stream (compress : List Nat → List Nat) (b : List Nat) : Except PErr (List Nat) :=
  ebind (BgzfWriter.write ⟨[], []⟩ compress b) fun w1 =>
  ebind (w1.flush compress) fun w2 =>
  .ok w2.handle

/-- The pipeline emits exactly the framed blocks of the 65536-byte chunks of
b followed by one final block holding the remainder. -/
theorem encode_stream_ok (c : List Nat → List Nat)
    (hc : ∀ l : List Nat, l.length ≤ 65536 → (c l).length + 25 < 65536) (b : List Nat) :
    encode_stream c b =
      .ok (((chunk_payloads 65536 b.length b ++ [chunk_rest 65536 b.length b]).map
        (blockBytes c)).flatten) := by
  have hflat : ∀ (F : List Nat) (R : List Nat),
      ((chunk_payloads 65536 b.length b ++ [R]).map (blockBytes c)).flatten =
        ((chunk_payloads 65536 b.length b).map (blockBytes c)).flatten ++ blockBytes c R := by
    intro F R
    rw [List.map_append, List.flatten_append, List.map_cons, List.map_nil,
      List.flatten_cons, List.flatten_nil, List.append_nil]
  unfold encode_stream BgzfWriter.write
  by_cases hlen : b.length < 65536
  · rw [if_pos (show ([] : List Nat).length + b.length < 65536 from by
      rw [List.length_nil]; omega)]
    rw [ebind_ok (rfl :
      (Except.ok { handle := ([] : List Nat), buffer := [] ++ b } : Except PErr BgzfWriter)
        = .ok ⟨[], [] ++ b⟩)]
    rw [ebind_ok (flush_ok c hc ⟨[], [] ++ b⟩)]
    rw [show (⟨[], [] ++ b⟩ : BgzfWriter).buffer = b from by rw [List.nil_append]]
    rw [show (⟨[], [] ++ b⟩ : BgzfWriter).handle = ([] : List Nat) from rfl]
    rw [chunk_payloads_stop 65535 _ _ hlen, chunk_rest_stop 65535 _ _ hlen]
    rw [chunk_payloads_stop 65536 _ _ hlen, chunk_rest_stop 65536 _ _ hlen]
    rw [List.map_nil, List.flatten_nil, List.append_nil, List.nil_append, List.nil_append]
    rw [List.map_cons, List.map_nil, List.flatten_cons, List.flatten_nil, List.append_nil]
  · rw [if_neg (show ¬(([] : List Nat).length + b.length < 65536) from by
      rw [List.length_nil]; omega)]
    have hwl := write_loop_ok c hc ((⟨[], []⟩ : BgzfWriter).buffer.length + b.length)
      ⟨[], ([] : List Nat) ++ b⟩ (by
        rw [List.nil_append]
        show b.length ≤ ([] : List Nat).length + b.length
        rw [List.length_nil]
        omega)
    rw [hwl]
    rw [show (⟨[], ([] : List Nat) ++ b⟩ : BgzfWriter).buffer = b from by rw [List.nil_append]]
    rw [show ((⟨[], []⟩ : BgzfWriter).buffer.length + b.length) = b.length from by
      show ([] : List Nat).length + b.length = b.length
      rw [List.length_nil]
      omega]
    set F := ((chunk_payloads 65536 b.length b).map (blockBytes c)).flatten with hF
    set R := chunk_rest 65536 b.length b with hR
    have hRlen : R.length < 65536 := chunk_rest_short 65536 (by omega) _ _ (le_refl _)
    rw [ebind_ok (rfl : (Except.ok (⟨(⟨[], ([] : List Nat) ++ b⟩ : BgzfWriter).handle ++ F, R⟩
      : BgzfWriter) : Except PErr BgzfWriter) = .ok ⟨[] ++ F, R⟩)]
    rw [ebind_ok (flush_ok c hc ⟨[] ++ F, R⟩)]
    rw [show (⟨[] ++ F, R⟩ : BgzfWriter).buffer = R from rfl]
    rw [show (⟨[] ++ F, R⟩ : BgzfWriter).handle = [] ++ F from rfl]
    rw [chunk_payloads_stop 65535 _ _ hRlen, chunk_rest_stop 65535 _ _ hRlen]
    rw [List.map_nil, List.flatten_nil, List.append_nil, List.nil_append]
    rw [hflat F R]

/-- C1: stream round-trip.  Writing any byte sequence b through the Writer
(write, then flush) and decoding every emitted block in order, concatenating
the decompressed payloads, yields exactly b.  The raw-DEFLATE pair is
abstract: the hypotheses say decompression inverts compression and that
compressed chunks fit the BC field, which zlib guarantees for the 64KiB
chunks the writer emits. -/
theorem stream_roundtrip (c d : List Nat → List Nat) (b : List Nat)
    (hinv : ∀ l : List Nat, d (c l) = l)
    (hc : ∀ l : List Nat, l.length ≤ 65536 → (c l).length + 25 < 65536) :
    ebind (encode_stream c b) (fun s => decode_all d s) = .ok b := by
  rw [ebind_ok (encode_stream_ok c hc b)]
  set PS := chunk_payloads 65536 b.length b ++ [chunk_rest 65536 b.length b] with hPS
  have hwf : ∀ p ∈ PS, p.length ≤ 65536 ∧ (c p).length + 25 < 65536 ∧ d (c p) = p := by
    intro p hp
    have hplen : p.length ≤ 65536 := by
      rcases List.mem_append.mp hp with hmem | hmem
      · exact chunk_payloads_length 65536 _ _ _ hmem
      · have : p = chunk_rest 65536 b.length b := by
          cases List.mem_cons.mp hmem with
          | inl h => exact h
          | inr h => cases h
        rw [this]
        have := chunk_rest_short 65536 (by omega) b.length b (le_refl _)
        omega
    exact ⟨hplen, hc p hplen, hinv p⟩
  have hfuel : PS.length ≤ ((PS.map (blockBytes c)).flatten).length + 1 := by
    have := map_blockBytes_flatten_length c PS
    omega
  unfold decode_all
  have h := decode_all_loop_blocks d c PS [] []
    (((PS.map (blockBytes c)).flatten).length + 1) hwf hfuel
  rw [List.nil_append, List.nil_append] at h
  rw [show (([] : List Nat)).length = 0 from rfl] at h
  rw [h]
  have hflat : PS.flatten = b := by
    rw [hPS, List.flatten_append, List.flatten_cons, List.flatten_nil, List.append_nil]
    exact chunk_append 65536 b.length b
  rw [hflat]

/-- Witness for C1 with the concrete invertible codec on a 3-byte payload. -/
theorem stream_roundtrip_witness :
    ebind (encode_stream cEnc [1, 2, 3]) (fun s => decode_all cDec s) = .ok [1, 2, 3] :=
  stream_roundtrip cEnc cDec [1, 2, 3] cDec_cEnc cEnc_short

/-- Modelled from the spec: this source revision of BgzfReader implements no
seek method (the class has only __init__, _load_block, tell and read), even
though the module docstring declares random access via virtual offsets as
the module's aim.  Spec section 4.3: seek(virtual_offset) unpacks the offset
into (block_start, within_block); if block_start differs from the currently
loaded block's start, seek the underlying source to block_start and decode
that block fresh; set the within-block cursor to within_block. -/
def BgzfReader.seek (r : BgzfReader) (decompress : List Nat → List Nat)
    (virtual_offset : Nat) : Except PErr BgzfReader :=
  if (split_virtual_offset virtual_offset).1 ≠ r.block_start_offset then
    ebind (_load_bgzf_block decompress r.stream (split_virtual_offset virtual_offset).1)
      fun lr =>
        .ok { r with pos := lr.2, block_start_offset := lr.1.1, block_size := lr.1.2.1,
                     buffer := lr.1.2.2,
                     within_block_offset := (split_virtual_offset virtual_offset).2 }
  else .ok { r with within_block_offset := (split_virtual_offset virtual_offset).2 }

/-- C7 (against the spec-modelled seek): seek unpacks the virtual offset;
when the block start matches the loaded block it only moves the cursor;
when it differs, it decodes the block at that start fresh (the decoded
block's reported start is the requested one) and sets the cursor to the
within-block offset. -/
theorem seek_unpacks_and_reloads (d : List Nat → List Nat) (r : BgzfReader) (vo : Nat) :
    ((split_virtual_offset vo).1 = r.block_start_offset →
      BgzfReader.seek r d vo = .ok { r with within_block_offset := (split_virtual_offset vo).2 })
    ∧ ((split_virtual_offset vo).1 ≠ r.block_start_offset →
      ∀ st bsz data p1,
        _load_bgzf_block d r.stream (split_virtual_offset vo).1 = .ok ((st, bsz, data), p1) →
        BgzfReader.seek r d vo =
          .ok ⟨r.stream, p1, (split_virtual_offset vo).1, bsz, data,
            (split_virtual_offset vo).2⟩) := by
  constructor
  · intro heq
    unfold BgzfReader.seek
    rw [if_neg (fun hc => hc heq)]
  · intro hne st bsz data p1 hload
    unfold BgzfReader.seek
    rw [if_pos hne, ebind_ok hload]
    have hst : st = (split_virtual_offset vo).1 := (load_bgzf_block_ok hload).1
    rw [hst]

/-- Witness for C7: a reader whose loaded block starts at 999 seeks to
virtual offset 0; the block at file offset 0 is decoded fresh and the
cursor set to 0. -/
theorem seek_unpacks_and_reloads_witness :
    (split_virtual_offset 0).1 ≠ (999 : Nat)
    ∧ BgzfReader.seek ⟨blockBytes cEnc [], 0, 999, 0, [], 0⟩ cDec 0 =
        .ok ⟨blockBytes cEnc [], 27, (split_virtual_offset 0).1, 27, [],
          (split_virtual_offset 0).2⟩ := by
  refine ⟨by decide, ?_⟩
  exact (seek_unpacks_and_reloads cDec ⟨blockBytes cEnc [], 0, 999, 0, [], 0⟩ 0).2
    (by decide) 0 27 [] 27 (by rfl)
